import Mathlib

/-
  Verification of Blabber, a BNF grammar compiler and sentence generator.

  The Rust sources are shallowly embedded: `PathBuf` is modelled by its
  display string, `std::io::Error` by a string payload, and the
  `HashMap<String, (Rewrite, Location)>` rule table by an association list
  with unique keys whose `insert` replaces any previous binding.  Reading a
  file is modelled by the list of its line-read results.
-/

namespace Blabber

/-- Model of `std::io::Error`: the code only wraps and carries it, so the
underlying OS error is abstracted to a string payload. -/
abbrev IOError := String

/-- Source location (src/error_handling.rs): `file` models the `PathBuf` via
its display string; `line` is 1-based, with 0 meaning file scope. -/
structure Location where
  file : String
  line : Nat
deriving DecidableEq, Repr

/-- Lexical token (src/parser/lexer.rs). -/
inductive Token where
  | Equals
  | Or
  | Nonterminal (s : String)
  | Terminal (s : String)
deriving DecidableEq, Repr

/-- Grammar symbol (src/grammar/mod.rs). -/
inductive Symbol where
  | Terminal (s : String)
  | Nonterminal (s : String)
deriving DecidableEq, Repr

/-- Symbols of a single alternative (src/grammar/mod.rs). -/
abbrev Alternative := List Symbol

/-- Alternatives of a rewrite rule (src/grammar/mod.rs). -/
abbrev Rewrite := List Alternative

/-- Compile-time error kinds (src/parser/mod.rs); `UndefinedNonterminal` is
the variant produced by src/parser/verifier.rs. -/
inductive CompileErrorType where
  | MissingEquals
  | UnexpectedEquals
  | MissingNonterminal
  | UnmatchedQuote
  | UnsplitRewrite
  | UnexpectedBlankLine
  | FileError (e : IOError)
  | UndefinedNonterminal (s : String)
deriving DecidableEq, Repr

/-- Located compile error, `Error<CompileErrorType>` (src/error_handling.rs). -/
structure CompileError where
  location : Location
  error : CompileErrorType
deriving DecidableEq, Repr

/-- Intermediate parsed rule (src/parser/mod.rs). -/
structure Rule where
  symbol : String
  rewrite : Rewrite
  location : Location
deriving DecidableEq, Repr

/-- Association-list model of the `HashMap<String, (Rewrite, Location)>` rule
table. -/
abbrev RulesMap := List (String × (Rewrite × Location))

/-- Model of `HashMap::insert`: any previous binding of the key is replaced. -/
def insert_rule (m : RulesMap) (k : String) (v : Rewrite × Location) : RulesMap :=
  (m.filter (fun e => e.1 != k)) ++ [(k, v)]

/-- Model of `HashMap::get`. -/
def lookup_rules (m : RulesMap) (k : String) : Option (Rewrite × Location) :=
  (m.find? (fun e => e.1 == k)).map (fun e => e.2)

/-- Model of `HashMap::contains_key`. -/
def contains_key (m : RulesMap) (k : String) : Bool :=
  (lookup_rules m k).isSome

/-- Compiled grammar (src/grammar/mod.rs, with the rule table shaped as the
parser and generator use it: rewrite together with defining location). -/
structure Grammar where
  start_symbol : String
  rules : RulesMap
deriving DecidableEq, Repr

/-- Embeds `lex_terminal` (src/parser/lexer.rs): the input starts at the
opening quote, which is consumed; the text up to the next quote is captured
and the closing quote must be present. -/
def lex_terminal (cs : List Char) : Except CompileErrorType (Token × List Char) :=
  let afterquote := cs.drop 1
  match afterquote.dropWhile (fun c => c != '\"') with
  | '\"' :: rest => .ok (Token.Terminal (String.mk (afterquote.takeWhile (fun c => c != '\"'))), rest)
  | _ => .error .UnmatchedQuote

/-- Embeds `lex_nonterminal` (src/parser/lexer.rs): `take_while` collects the
non-whitespace text and also consumes the terminating whitespace character
when one is present. -/
def lex_nonterminal (cs : List Char) : Token × List Char :=
  (Token.Nonterminal (String.mk (cs.takeWhile (fun c => !c.isWhitespace))),
   (cs.dropWhile (fun c => !c.isWhitespace)).drop 1)

/-- Embeds the scanning loop of `lex_line` (src/parser/lexer.rs); `fuel`
bounds the number of loop iterations, and `cs.length` is always enough
because every iteration consumes at least one character. -/
def lex_line_aux : Nat → List Char → Except CompileErrorType (List Token)
  | _, [] => .ok []
  | 0, _ :: _ => .ok []
  | fuel + 1, c :: rest =>
    if c = '=' then (lex_line_aux fuel rest).map (fun ts => Token.Equals :: ts)
    else if c = '|' then (lex_line_aux fuel rest).map (fun ts => Token.Or :: ts)
    else if c = '\"' then
      match lex_terminal (c :: rest) with
      | .error e => .error e
      | .ok tr => (lex_line_aux fuel tr.2).map (fun ts => tr.1 :: ts)
    else if !c.isWhitespace then
      (lex_line_aux fuel (lex_nonterminal (c :: rest)).2).map
        (fun ts => (lex_nonterminal (c :: rest)).1 :: ts)
    else lex_line_aux fuel rest

/-- Runs the lexer loop on a character list with sufficient fuel. -/
def lex_chars (cs : List Char) : Except CompileErrorType (List Token) :=
  lex_line_aux cs.length cs

/-- Embeds `lex_line` (src/parser/lexer.rs). -/
def lex_line (line : String) : Except CompileErrorType (List Token) :=
  lex_chars line.data

/-- Intermediate states of the scanning loop of `lex_line`:
`lex_reaches cs rest` holds when the scanner, started on the line `cs`, at
some point has exactly `rest` of the line left to consume.  Each constructor
mirrors one iteration of the loop (one `=` or `|` token, one successfully
lexed terminal, one nonterminal, or one skipped whitespace character); in
particular, when `rest` starts with `\"`, that quote opens a terminal. -/
inductive lex_reaches : List Char → List Char → Prop where
  | refl (cs : List Char) : lex_reaches cs cs
  | equals {rest cs' : List Char} (h : lex_reaches rest cs') :
      lex_reaches ('=' :: rest) cs'
  | orbar {rest cs' : List Char} (h : lex_reaches rest cs') :
      lex_reaches ('|' :: rest) cs'
  | terminal {rest cs' : List Char} (t : Token) (rest2 : List Char)
      (ht : lex_terminal ('\"' :: rest) = .ok (t, rest2))
      (h : lex_reaches rest2 cs') : lex_reaches ('\"' :: rest) cs'
  | nonterminal (c : Char) {rest cs' : List Char}
      (h1 : c ≠ '=') (h2 : c ≠ '|') (h3 : c ≠ '\"')
      (h4 : (!c.isWhitespace) = true)
      (h : lex_reaches (lex_nonterminal (c :: rest)).2 cs') :
      lex_reaches (c :: rest) cs'
  | whitespace (c : Char) {rest cs' : List Char} (hw : c.isWhitespace = true)
      (h : lex_reaches rest cs') : lex_reaches (c :: rest) cs'

/-- Embeds `parse_alternative` (src/parser/mod.rs): the iterator map plus
`collect` over `Result`, which stops at the first error. -/
def parse_alternative : List Token → Except CompileErrorType Alternative
  | [] => .ok []
  | t :: rest =>
    match t with
    | Token.Equals => .error .UnexpectedEquals
    | Token.Or => .error .UnsplitRewrite
    | Token.Nonterminal s =>
      match parse_alternative rest with
      | .error e => .error e
      | .ok syms => .ok (Symbol.Nonterminal s :: syms)
    | Token.Terminal s =>
      match parse_alternative rest with
      | .error e => .error e
      | .ok syms => .ok (Symbol.Terminal s :: syms)

/-- Embeds `slice::split` on `Token::Or`, as used by `parse_rewrite`: `n`
separators yield `n + 1` groups, empty groups included. -/
def split_or : List Token → List (List Token)
  | [] => [[]]
  | Token.Or :: rest => [] :: split_or rest
  | t :: rest =>
    match split_or rest with
    | [] => [[t]]
    | g :: gs => (t :: g) :: gs

/-- Collects the parsed alternatives of the split groups, stopping at the
first error (the `collect` over `Result` in `parse_rewrite`). -/
def collect_alternatives : List (List Token) → Except CompileErrorType Rewrite
  | [] => .ok []
  | g :: gs =>
    match parse_alternative g with
    | .error e => .error e
    | .ok a =>
      match collect_alternatives gs with
      | .error e => .error e
      | .ok r => .ok (a :: r)

/-- Embeds `parse_rewrite` (src/parser/mod.rs). -/
def parse_rewrite (tokens : List Token) : Except CompileErrorType Rewrite :=
  collect_alternatives (split_or tokens)

/-- Embeds `parse_line` (src/parser/mod.rs). -/
def parse_line (tokens : List Token) (location : Location) : Except CompileErrorType Rule :=
  match tokens[0]? with
  | some (Token.Nonterminal s) =>
    if tokens[1]? ≠ some Token.Equals then .error .MissingEquals
    else
      match parse_rewrite (tokens.drop 2) with
      | .error e => .error e
      | .ok rewrite => .ok ⟨s, rewrite, location⟩
  | some _ => .error .MissingNonterminal
  | none => .error .UnexpectedBlankLine

/-- Embeds `parse_lex_line` (src/parser/mod.rs). -/
def parse_lex_line (line : String) (location : Location) : Except CompileError Rule :=
  ((lex_line line).bind (fun ts => parse_line ts location)).mapError
    (fun error => ⟨location, error⟩)

/-- Embeds `is_rule_line` (src/parser/mod.rs): a line is processed unless it
is empty or starts with the comment marker. -/
def is_rule_line (line : String) : Bool :=
  !line.data.isEmpty && !(line.data.head? == some ';')

/-- Embeds `io_error` (src/parser/mod.rs): an I/O failure is located at line
0 of the file. -/
def io_error (error : IOError) (file : String) : CompileError :=
  ⟨⟨file, 0⟩, .FileError error⟩

/-- Embeds `file_line_nums` (src/parser/mod.rs): wrap read failures,
enumerate all physical lines from 0, keep the rule lines and the failed
reads, and shift to 1-based numbering. -/
def file_line_nums (path : String) (lines : List (Except IOError String)) :
    List (Nat × Except CompileError String) :=
  (((lines.map (fun l => l.mapError (fun e => io_error e path))).enum).filter
    (fun nl => match nl.2 with
      | .ok line => is_rule_line line
      | .error _ => true)).map (fun nl => (nl.1 + 1, nl.2))

/-- Per-line outcomes computed by `parse_file`: rule lines are lexed and
parsed at their 1-based physical line number, failed reads keep their
wrapped error. -/
def parsed_lines (path : String) (lines : List (Except IOError String)) :
    List (Except CompileError Rule) :=
  (file_line_nums path lines).map (fun nl =>
    match nl.2 with
    | .ok line => parse_lex_line line ⟨path, nl.1⟩
    | .error e => .error e)

/-- Error half of the `partition(is_ok)` in `parse_file`, with `unwrap_err`
already applied; `partition` keeps the original order. -/
def collect_errors (parsed : List (Except CompileError Rule)) : List CompileError :=
  parsed.filterMap (fun r => match r with
    | .error e => some e
    | .ok _ => none)

/-- Rule half of the `partition(is_ok)` in `parse_file`, with `unwrap`
already applied; `partition` keeps the original order. -/
def collect_rules (parsed : List (Except CompileError Rule)) : List Rule :=
  parsed.filterMap (fun r => match r with
    | .ok rule => some rule
    | .error _ => none)

/-- Embeds `From<Vec<Rule>> for Grammar` (src/parser/mod.rs): the start
symbol is the first rule's symbol, or empty for an empty rule list, and the
rules are inserted in order into the table. -/
def grammar_from_rules (value : List Rule) : Grammar :=
  { start_symbol :=
      match value with
      | [] => ""
      | r :: _ => r.symbol,
    rules := value.foldl (fun m r => insert_rule m r.symbol (r.rewrite, r.location)) [] }

/-- Embeds `parse_file` (src/parser/mod.rs): `file` is the outcome of opening
the path, holding the line reads when the open succeeded. -/
def parse_file (path : String) (file : Except IOError (List (Except IOError String))) :
    Except (List CompileError) Grammar :=
  match file with
  | .error e => .error [io_error e path]
  | .ok lines =>
    let parsed := parsed_lines path lines
    let errors := collect_errors parsed
    if errors.length > 0 then .error errors
    else .ok (grammar_from_rules (collect_rules parsed))

/-- Embeds `get_alternative_undefined_symbols` (src/parser/verifier.rs). -/
def get_alternative_undefined_symbols (alternative : Alternative) (location : Location)
    (rules : RulesMap) : List CompileError :=
  ((alternative.filterMap (fun symbol =>
      match symbol with
      | Symbol.Nonterminal s => some s
      | Symbol.Terminal _ => none)).filter
    (fun s => !contains_key rules s)).map
    (fun s => ⟨location, .UndefinedNonterminal s⟩)

/-- Embeds `get_rewrite_undefined_symbols` (src/parser/verifier.rs). -/
def get_rewrite_undefined_symbols (rewrite : Rewrite) (location : Location)
    (rules : RulesMap) : List CompileError :=
  rewrite.flatMap (fun alternative => get_alternative_undefined_symbols alternative location rules)

/-- Embeds `get_undefined_symbols` (src/parser/verifier.rs). -/
def get_undefined_symbols (rules : RulesMap) : List CompileError :=
  rules.flatMap (fun e => get_rewrite_undefined_symbols e.2.1 e.2.2 rules)

/-- Embeds `verify_rules` (src/parser/verifier.rs). -/
def verify_rules (rules : RulesMap) : Except (List CompileError) Unit :=
  let errors := get_undefined_symbols rules
  if errors.length > 0 then .error errors else .ok ()

/-- Generation-time error kinds (src/generator/mod.rs). -/
inductive GenerateErrorType where
  | UndefinedNonterminal (s : String)
deriving DecidableEq, Repr

/-- Located generation error, `Error<GenerateErrorType>`. -/
structure GenerateError where
  location : Location
  error : GenerateErrorType
deriving DecidableEq, Repr

/-- Task marker for the recursive generator: which of the mutually recursive
source functions is being run (`generate_nonterminal`, `generate_rewrite`,
the symbol loop inside it, or `generate_symbol`). -/
inductive GenTask where
  | nt (name : String)
  | rw (rewrite : Rewrite)
  | alt (symbols : Alternative)
  | sym (symbol : Symbol)

/-- Embeds the mutual recursion of `generate_nonterminal`, `generate_rewrite`
and `generate_symbol` (src/generator/mod.rs).  The thread-local random source
is modelled by the stream `rng` read at a draw counter that each `choose` on
a non-empty rewrite advances, choosing index `rng k % length`.  The source
recursion is unbounded on cyclic grammars, so `fuel` bounds the call depth
and `none` means the bound was hit.  Results carry the next draw counter. -/
def gen (rules : RulesMap) (rng : Nat → Nat) :
    Nat → GenTask → Location → Nat → Option (Except GenerateError (String × Nat))
  | 0, _, _, _ => none
  | fuel + 1, .nt name, location, k =>
    match lookup_rules rules name with
    | none => some (.error ⟨location, .UndefinedNonterminal name⟩)
    | some rl => gen rules rng fuel (.rw rl.1) rl.2 k
  | fuel + 1, .rw rewrite, location, k =>
    match rewrite with
    | [] => gen rules rng fuel (.alt []) location k
    | a :: rest =>
      gen rules rng fuel
        (.alt ((a :: rest).get ⟨rng k % (a :: rest).length, Nat.mod_lt _ (Nat.succ_pos _)⟩))
        location (k + 1)
  | _ + 1, .alt [], _, k => some (.ok ("", k))
  | fuel + 1, .alt (s :: rest), location, k =>
    match gen rules rng fuel (.sym s) location k with
    | none => none
    | some (.error e) => some (.error e)
    | some (.ok sk) =>
      match gen rules rng fuel (.alt rest) location sk.2 with
      | none => none
      | some (.error e) => some (.error e)
      | some (.ok sk2) => some (.ok (sk.1 ++ sk2.1, sk2.2))
  | _ + 1, .sym (Symbol.Terminal t), _, k => some (.ok (t, k))
  | fuel + 1, .sym (Symbol.Nonterminal t), location, k => gen rules rng fuel (.nt t) location k

/-- Embeds `generate_nonterminal` (src/generator/mod.rs). -/
def generate_nonterminal (fuel : Nat) (rules : RulesMap) (rng : Nat → Nat) (name : String)
    (location : Location) (k : Nat) : Option (Except GenerateError (String × Nat)) :=
  gen rules rng fuel (.nt name) location k

/-- Embeds `generate_rewrite` (src/generator/mod.rs). -/
def generate_rewrite (fuel : Nat) (rules : RulesMap) (rng : Nat → Nat) (rewrite : Rewrite)
    (location : Location) (k : Nat) : Option (Except GenerateError (String × Nat)) :=
  gen rules rng fuel (.rw rewrite) location k

/-- Embeds the concatenation loop over a chosen alternative inside
`generate_rewrite` (src/generator/mod.rs). -/
def generate_alternative (fuel : Nat) (rules : RulesMap) (rng : Nat → Nat)
    (symbols : Alternative) (location : Location) (k : Nat) :
    Option (Except GenerateError (String × Nat)) :=
  gen rules rng fuel (.alt symbols) location k

/-- Embeds `generate_symbol` (src/generator/mod.rs). -/
def generate_symbol (fuel : Nat) (rules : RulesMap) (rng : Nat → Nat) (symbol : Symbol)
    (location : Location) (k : Nat) : Option (Except GenerateError (String × Nat)) :=
  gen rules rng fuel (.sym symbol) location k

/-- Embeds `generate` (src/generator/mod.rs). -/
def generate (fuel : Nat) (grammar : Grammar) (rng : Nat → Nat) (file : String) :
    Option (Except GenerateError (String × Nat)) :=
  generate_nonterminal fuel grammar.rules rng grammar.start_symbol ⟨file, 0⟩ 0

/-- Embeds `Display for Location` (src/error_handling.rs). -/
def display_location (l : Location) : String :=
  if l.line = 0 then l.file else l.file ++ ":" ++ Nat.repr l.line

/-- Embeds `Display for Error<T>` (src/error_handling.rs); `msg` stands for
the rendering of the inner error value. -/
def display_error (location : Location) (msg : String) : String :=
  "\x1b[31;49;1m[" ++ display_location location ++ "]\x1b[39;49;1m  " ++ msg ++ "\x1b[0m"

/-- Specification-side predicate, following the claim wording: the symbol is
either a terminal or a nonterminal whose name is a key of the table. -/
def symbol_defined (rules : RulesMap) : Symbol → Bool
  | Symbol.Nonterminal s => contains_key rules s
  | Symbol.Terminal _ => true

/-- Specification-side predicate, following the claim wording: every
`Nonterminal` symbol appearing in any alternative of any rewrite of the
table is itself a key of the table. -/
def rules_closed (rules : RulesMap) : Bool :=
  rules.all (fun e => e.2.1.all (fun alternative => alternative.all (symbol_defined rules)))

/-- Specification-side error list, following the claim wording: for every
rule, for every alternative of its rewrite, for every symbol, one
`UndefinedNonterminal` error per undefined nonterminal occurrence, located
at the defining rule's location. -/
def spec_undefined_errors (rules : RulesMap) : List CompileError :=
  rules.flatMap (fun e => e.2.1.flatMap (fun alternative =>
    alternative.filterMap (fun symbol =>
      match symbol with
      | Symbol.Nonterminal s =>
        if contains_key rules s then none else some ⟨e.2.2, .UndefinedNonterminal s⟩
      | Symbol.Terminal _ => none)))

/-! Theorems -/

/-- Claim C9 counterexample: the code renders a located error with ANSI colour
escapes and two spaces before the message, so the rendering is not the plain
string the claim states. -/
theorem display_error_not_plain : display_error ⟨"f", 2⟩ "boom" ≠ "[f:2] boom" := by
  decide

/-- Claim C9 (amended): every located error renders as the ANSI-coloured
bracketed location, two spaces, the message, and the colour reset, where the
location part is `<file>:<line>` when the line is greater than 0 and just
`<file>` when the line is 0. -/
theorem display_error_rendering (file : String) (line : Nat) (msg : String) :
    display_error ⟨file, line⟩ msg =
      (if line = 0 then
        "\x1b[31;49;1m[" ++ file ++ "]\x1b[39;49;1m  " ++ msg ++ "\x1b[0m"
      else
        "\x1b[31;49;1m[" ++ (file ++ ":" ++ Nat.repr line) ++ "]\x1b[39;49;1m  " ++ msg ++ "\x1b[0m") := by
  by_cases h : line = 0 <;> simp [display_error, display_location, h]

/-- Claim C1: contrary to the claim, `parse_file` never invokes the Verifier:
on the single-line file `a = b` it returns a constructed `Grammar` even
though the rule table references the undefined nonterminal `b`, which
`verify_rules` on that very table would have reported. -/
theorem parse_file_skips_verification :
    parse_file "g" (.ok [.ok "a = b"]) =
        .ok ⟨"a", [("a", ([[Symbol.Nonterminal "b"]], ⟨"g", 1⟩))]⟩
      ∧ rules_closed [("a", ([[Symbol.Nonterminal "b"]], ⟨"g", 1⟩))] = false
      ∧ verify_rules [("a", ([[Symbol.Nonterminal "b"]], ⟨"g", 1⟩))] =
          .error [⟨⟨"g", 1⟩, .UndefinedNonterminal "b"⟩] := by
  refine ⟨by rfl, by decide, by rfl⟩

/-- Claim C4: generation on a defined nonterminal proceeds through its
rewrite; a non-empty rewrite has one alternative selected by the random
draw; an empty rewrite and a rewrite whose single alternative is empty both
yield the empty string; a terminal contributes its literal text; and the
expansion of an alternative is the in-order concatenation of the expansions
of its symbols. -/
theorem generator_expansion :
    (∀ (fuel : Nat) (rules : RulesMap) (rng : Nat → Nat) (name : String) (location : Location)
        (k : Nat) (rl : Rewrite × Location), lookup_rules rules name = some rl →
      generate_nonterminal (fuel + 1) rules rng name location k =
        generate_rewrite fuel rules rng rl.1 rl.2 k)
    ∧ (∀ (fuel : Nat) (rules : RulesMap) (rng : Nat → Nat) (rewrite : Rewrite)
        (location : Location) (k : Nat) (h : rewrite ≠ []),
      generate_rewrite (fuel + 1) rules rng rewrite location k =
        generate_alternative fuel rules rng
          (rewrite.get ⟨rng k % rewrite.length, Nat.mod_lt _ (List.length_pos.mpr h)⟩)
          location (k + 1))
    ∧ (∀ (fuel : Nat) (rules : RulesMap) (rng : Nat → Nat) (location : Location) (k : Nat),
      generate_rewrite (fuel + 2) rules rng [] location k = some (.ok ("", k)))
    ∧ (∀ (fuel : Nat) (rules : RulesMap) (rng : Nat → Nat) (location : Location) (k : Nat),
      generate_rewrite (fuel + 2) rules rng [[]] location k = some (.ok ("", k + 1)))
    ∧ (∀ (fuel : Nat) (rules : RulesMap) (rng : Nat → Nat) (t : String) (location : Location)
        (k : Nat),
      generate_symbol (fuel + 1) rules rng (Symbol.Terminal t) location k = some (.ok (t, k)))
    ∧ (∀ (fuel : Nat) (rules : RulesMap) (rng : Nat → Nat) (s : Symbol) (rest : Alternative)
        (location : Location) (k str k2 str2 k3),
      generate_symbol fuel rules rng s location k = some (.ok (str, k2)) →
      generate_alternative fuel rules rng rest location k2 = some (.ok (str2, k3)) →
      generate_alternative (fuel + 1) rules rng (s :: rest) location k =
        some (.ok (str ++ str2, k3))) := by
  refine ⟨?_, ?_, ?_, ?_, ?_, ?_⟩
  · intro fuel rules rng name location k rl h
    simp [generate_nonterminal, generate_rewrite, gen, h]
  · intro fuel rules rng rewrite location k h
    match rewrite with
    | [] => exact absurd rfl h
    | a :: rest => rfl
  · intro fuel rules rng location k
    rfl
  · intro fuel rules rng location k
    show gen rules rng (fuel + 1)
        (.alt (([[]] : Rewrite).get ⟨rng k % 1, Nat.mod_lt _ (Nat.succ_pos _)⟩))
        location (k + 1) = some (.ok ("", k + 1))
    rw [List.get_singleton]
    rfl
  · intro fuel rules rng t location k
    rfl
  · intro fuel rules rng s rest location k str k2 str2 k3 h1 h2
    simp only [generate_alternative, generate_symbol] at h1 h2 ⊢
    simp [gen, h1, h2]

/-- Claim C4 witness: the expansion steps evaluated on a concrete grammar. -/
theorem generator_expansion_witness :
    generate_nonterminal 3 [("s", ([[Symbol.Terminal "hi"]], ⟨"f", 1⟩))] (fun _ => 0) "s"
        ⟨"f", 0⟩ 0 =
      generate_rewrite 2 [("s", ([[Symbol.Terminal "hi"]], ⟨"f", 1⟩))] (fun _ => 0)
        [[Symbol.Terminal "hi"]] ⟨"f", 1⟩ 0
    ∧ generate_rewrite 3 [] (fun _ => 0) [[Symbol.Terminal "x"]] ⟨"f", 0⟩ 0 =
      generate_alternative 2 [] (fun _ => 0) [Symbol.Terminal "x"] ⟨"f", 0⟩ 1
    ∧ generate_alternative 2 [] (fun _ => 0) [Symbol.Terminal "x"] ⟨"f", 0⟩ 1 =
      some (.ok ("x" ++ "", 1)) := by
  refine ⟨?_, ?_, ?_⟩
  · exact generator_expansion.1 2 _ _ "s" ⟨"f", 0⟩ 0 ([[Symbol.Terminal "hi"]], ⟨"f", 1⟩) rfl
  · exact generator_expansion.2.1 2 [] (fun _ => 0) [[Symbol.Terminal "x"]] ⟨"f", 0⟩ 0
      (by simp)
  · exact generator_expansion.2.2.2.2.2 1 [] (fun _ => 0) (Symbol.Terminal "x") [] ⟨"f", 0⟩
      1 "x" 1 "" 1 rfl rfl

/-- Helper: a token group without `Or` and `Equals` parses to an alternative. -/
theorem parse_alternative_ok (g : List Token) (hor : Token.Or ∉ g) (heq : Token.Equals ∉ g) :
    ∃ a, parse_alternative g = .ok a := by
  induction g with
  | nil => exact ⟨[], rfl⟩
  | cons t rest ih =>
    have hor' : Token.Or ∉ rest := fun h => hor (List.mem_cons_of_mem _ h)
    have heq' : Token.Equals ∉ rest := fun h => heq (List.mem_cons_of_mem _ h)
    obtain ⟨a, ha⟩ := ih hor' heq'
    match t with
    | Token.Equals => exact absurd (List.mem_cons_self _ _) heq
    | Token.Or => exact absurd (List.mem_cons_self _ _) hor
    | Token.Nonterminal s =>
      exact ⟨Symbol.Nonterminal s :: a, by simp [parse_alternative, ha]⟩
    | Token.Terminal s =>
      exact ⟨Symbol.Terminal s :: a, by simp [parse_alternative, ha]⟩

/-- Helper: a token group without `Or` that contains `Equals` fails with
`UnexpectedEquals` (the first error the collect would meet). -/
theorem parse_alternative_equals (g : List Token) (hor : Token.Or ∉ g)
    (heq : Token.Equals ∈ g) : parse_alternative g = .error .UnexpectedEquals := by
  induction g with
  | nil => cases heq
  | cons t rest ih =>
    match t with
    | Token.Equals => rfl
    | Token.Or => exact absurd (List.mem_cons_self _ _) hor
    | Token.Nonterminal s =>
      have h1 : Token.Equals ∈ rest := by simpa using heq
      have h2 : Token.Or ∉ rest := fun h => hor (List.mem_cons_of_mem _ h)
      simp [parse_alternative, ih h2 h1]
    | Token.Terminal s =>
      have h1 : Token.Equals ∈ rest := by simpa using heq
      have h2 : Token.Or ∉ rest := fun h => hor (List.mem_cons_of_mem _ h)
      simp [parse_alternative, ih h2 h1]

/-- Helper: unfolding of `split_or` at a non-separator head token. -/
theorem split_or_cons_ne (t : Token) (rest : List Token) (h : t ≠ Token.Or) :
    split_or (t :: rest) =
      (match split_or rest with
        | [] => [[t]]
        | g :: gs => (t :: g) :: gs) := by
  match t with
  | Token.Equals => rfl
  | Token.Nonterminal s => rfl
  | Token.Terminal s => rfl
  | Token.Or => exact absurd rfl h

/-- Helper: splitting always yields at least one group. -/
theorem split_or_ne_nil (ts : List Token) : split_or ts ≠ [] := by
  match ts with
  | [] => simp [split_or]
  | Token.Or :: rest => simp [split_or]
  | Token.Equals :: rest =>
    rw [split_or_cons_ne _ _ (by simp)]
    cases h : split_or rest <;> simp
  | Token.Nonterminal s :: rest =>
    rw [split_or_cons_ne _ _ (by simp)]
    cases h : split_or rest <;> simp
  | Token.Terminal s :: rest =>
    rw [split_or_cons_ne _ _ (by simp)]
    cases h : split_or rest <;> simp

/-- Helper: no group produced by the split contains the separator. -/
theorem split_or_no_or (ts : List Token) : ∀ g ∈ split_or ts, Token.Or ∉ g := by
  induction ts with
  | nil =>
    intro g hg
    simp [split_or] at hg
    simp [hg]
  | cons t rest ih =>
    intro g hg
    by_cases hto : t = Token.Or
    · subst hto
      rcases List.mem_cons.mp hg with rfl | h
      · simp
      · exact ih g h
    · rw [split_or_cons_ne _ _ hto] at hg
      cases hsp : split_or rest with
      | nil => exact absurd hsp (split_or_ne_nil rest)
      | cons gh gs =>
        rw [hsp] at hg
        rcases List.mem_cons.mp hg with rfl | hmem
        · intro hc
          rcases List.mem_cons.mp hc with h1 | h1
          · exact hto h1.symm
          · exact ih gh (by rw [hsp]; exact List.mem_cons_self _ _) h1
        · exact ih g (by rw [hsp]; exact List.mem_cons_of_mem _ hmem)

/-- Helper: an `Equals` in the token list survives into some split group. -/
theorem exists_mem_split_or (ts : List Token) (h : Token.Equals ∈ ts) :
    ∃ g ∈ split_or ts, Token.Equals ∈ g := by
  induction ts with
  | nil => cases h
  | cons t rest ih =>
    by_cases hto : t = Token.Or
    · subst hto
      have h' : Token.Equals ∈ rest := by simpa using h
      obtain ⟨g, hg, hq⟩ := ih h'
      exact ⟨g, List.mem_cons_of_mem _ hg, hq⟩
    · cases hsp : split_or rest with
      | nil => exact absurd hsp (split_or_ne_nil rest)
      | cons gh gs =>
        rcases List.mem_cons.mp h with rfl | hr
        · refine ⟨Token.Equals :: gh, ?_, List.mem_cons_self _ _⟩
          rw [split_or_cons_ne _ _ hto, hsp]
          exact List.mem_cons_self _ _
        · obtain ⟨g, hg, hq⟩ := ih hr
          rcases List.mem_cons.mp (hsp ▸ hg) with rfl | hgs
          · refine ⟨t :: g, ?_, List.mem_cons_of_mem _ hq⟩
            rw [split_or_cons_ne _ _ hto, hsp]
            exact List.mem_cons_self _ _
          · refine ⟨g, ?_, hq⟩
            rw [split_or_cons_ne _ _ hto, hsp]
            exact List.mem_cons_of_mem _ hgs

/-- Helper: collecting groups free of `Or` but with an `Equals` somewhere
fails with `UnexpectedEquals`. -/
theorem collect_alternatives_equals (gs : List (List Token))
    (hor : ∀ g ∈ gs, Token.Or ∉ g) (hq : ∃ g ∈ gs, Token.Equals ∈ g) :
    collect_alternatives gs = .error .UnexpectedEquals := by
  induction gs with
  | nil =>
    obtain ⟨g, hg, _⟩ := hq
    cases hg
  | cons g rest ih =>
    by_cases hgq : Token.Equals ∈ g
    · simp [collect_alternatives,
        parse_alternative_equals g (hor g (List.mem_cons_self _ _)) hgq]
    · obtain ⟨g', hg', hq'⟩ := hq
      have hg'' : g' ∈ rest := by
        rcases List.mem_cons.mp hg' with rfl | hm
        · exact absurd hq' hgq
        · exact hm
      obtain ⟨a, ha⟩ := parse_alternative_ok g (hor g (List.mem_cons_self _ _)) hgq
      simp [collect_alternatives, ha,
        ih (fun x hx => hor x (List.mem_cons_of_mem _ hx)) ⟨g', hg'', hq'⟩]

/-- Helper: an `Equals` anywhere in the rewrite region fails the rewrite with
`UnexpectedEquals`. -/
theorem parse_rewrite_equals (ts : List Token) (h : Token.Equals ∈ ts) :
    parse_rewrite ts = .error .UnexpectedEquals := by
  obtain ⟨g, hg, hq⟩ := exists_mem_split_or ts h
  exact collect_alternatives_equals _ (split_or_no_or ts) ⟨g, hg, hq⟩

/-- Claim C5: `parse_line` fails with `UnexpectedBlankLine` on an empty token
sequence, with `MissingNonterminal` when the first token is a terminal,
equals or or-bar, with `MissingEquals` when a nonterminal is not followed by
an equals token, and with `UnexpectedEquals` when a later equals occurs; the
checks are applied in this order and the first applicable failure wins. -/
theorem parse_line_order :
    (∀ location : Location, parse_line [] location = .error .UnexpectedBlankLine)
    ∧ (∀ (t : Token) (rest : List Token) (location : Location),
        (t = Token.Equals ∨ t = Token.Or ∨ ∃ s, t = Token.Terminal s) →
        parse_line (t :: rest) location = .error .MissingNonterminal)
    ∧ (∀ (s : String) (rest : List Token) (location : Location),
        rest.head? ≠ some Token.Equals →
        parse_line (Token.Nonterminal s :: rest) location = .error .MissingEquals)
    ∧ (∀ (s : String) (rest : List Token) (location : Location),
        Token.Equals ∈ rest →
        parse_line (Token.Nonterminal s :: Token.Equals :: rest) location =
          .error .UnexpectedEquals) := by
  refine ⟨fun _ => rfl, ?_, ?_, ?_⟩
  · rintro t rest location (rfl | rfl | ⟨s, rfl⟩) <;> simp [parse_line]
  · intro s rest location h
    rw [List.head?_eq_getElem?] at h
    simp [parse_line, h]
  · intro s rest location h
    simp [parse_line, parse_rewrite_equals rest h]

/-- Claim C5 witness: the four failure shapes on concrete token sequences. -/
theorem parse_line_order_witness :
    parse_line [Token.Terminal "alpha", Token.Equals, Token.Nonterminal "bravo"] ⟨"f", 1⟩ =
        .error .MissingNonterminal
      ∧ parse_line [Token.Nonterminal "alpha", Token.Nonterminal "bravo"] ⟨"f", 1⟩ =
        .error .MissingEquals
      ∧ parse_line [Token.Nonterminal "a", Token.Equals, Token.Nonterminal "b", Token.Equals]
          ⟨"f", 1⟩ = .error .UnexpectedEquals := by
  refine ⟨?_, ?_, ?_⟩
  · exact parse_line_order.2.1 _ _ _ (Or.inr (Or.inr ⟨"alpha", rfl⟩))
  · exact parse_line_order.2.2.1 "alpha" _ _ (by decide)
  · exact parse_line_order.2.2.2 "a" _ _ (by decide)

/-- Helper: splitting on `Or` yields one group more than the separator count. -/
theorem split_or_length (ts : List Token) :
    (split_or ts).length = ts.count Token.Or + 1 := by
  induction ts with
  | nil => rfl
  | cons t rest ih =>
    by_cases hto : t = Token.Or
    · subst hto
      simp only [split_or, List.length_cons, List.count_cons, ih]
      simp
    · rw [split_or_cons_ne _ _ hto]
      cases hsp : split_or rest with
      | nil => exact absurd hsp (split_or_ne_nil rest)
      | cons g gs =>
        rw [hsp] at ih
        simp only [List.length_cons] at ih
        simp only [List.length_cons, List.count_cons, ih]
        have : (Token.Or == t) = false := by
          cases t <;> simp_all
        simp [this, hto]

/-- Helper: collecting preserves the number of groups. -/
theorem collect_alternatives_length (gs : List (List Token)) (r : Rewrite)
    (h : collect_alternatives gs = .ok r) : r.length = gs.length := by
  induction gs generalizing r with
  | nil =>
    simp only [collect_alternatives] at h
    cases h
    rfl
  | cons g rest ih =>
    simp only [collect_alternatives] at h
    cases hp : parse_alternative g with
    | error e => rw [hp] at h; cases h
    | ok a =>
      rw [hp] at h
      cases hc : collect_alternatives rest with
      | error e => rw [hc] at h; cases h
      | ok rr =>
        rw [hc] at h
        cases h
        simp [ih rr hc]

/-- Helper: a rule accepted by `parse_line` has one alternative more than the
number of `Or` tokens in its rewrite region. -/
theorem parse_line_ok_length (tokens : List Token) (location : Location) (r : Rule)
    (h : parse_line tokens location = .ok r) :
    r.rewrite.length = (tokens.drop 2).count Token.Or + 1 := by
  simp only [parse_line] at h
  split at h
  · split at h
    · cases h
    · cases hrw : parse_rewrite (tokens.drop 2) with
      | error e => rw [hrw] at h; cases h
      | ok rewrite =>
        rw [hrw] at h
        cases h
        rw [collect_alternatives_length _ _ hrw, split_or_length]
  · cases h
  · cases h

/-- Helper: membership in an inserted table comes from the old table or is
the inserted binding. -/
theorem mem_insert_rule {m : RulesMap} {k : String} {v : Rewrite × Location}
    {e : String × (Rewrite × Location)} (h : e ∈ insert_rule m k v) :
    e ∈ m ∨ e = (k, v) := by
  rcases List.mem_append.mp h with h1 | h1
  · exact Or.inl (List.mem_filter.mp h1).1
  · simp only [List.mem_singleton] at h1
    exact Or.inr h1

/-- Helper: every entry of the assembled table is the binding of some rule of
the input list. -/
theorem mem_foldl_insert (value : List Rule) :
    ∀ (init : RulesMap) (e : String × (Rewrite × Location)),
    e ∈ value.foldl (fun m r => insert_rule m r.symbol (r.rewrite, r.location)) init →
    e ∈ init ∨ ∃ r ∈ value, e = (r.symbol, (r.rewrite, r.location)) := by
  induction value with
  | nil => exact fun init e h => Or.inl h
  | cons r rs ih =>
    intro init e h
    rcases ih _ e h with h1 | ⟨r', hr', he⟩
    · rcases mem_insert_rule h1 with h2 | h2
      · exact Or.inl h2
      · exact Or.inr ⟨r, List.mem_cons_self _ _, h2⟩
    · exact Or.inr ⟨r', List.mem_cons_of_mem _ hr', he⟩

/-- Helper: every rule assembled by `parse_file` was accepted by `parse_line`. -/
theorem collect_rules_provenance (path : String) (lines : List (Except IOError String))
    (r : Rule) (h : r ∈ collect_rules (parsed_lines path lines)) :
    ∃ ts loc, parse_line ts loc = .ok r := by
  simp only [collect_rules, List.mem_filterMap] at h
  obtain ⟨x, hx, hmt⟩ := h
  cases x with
  | error e => cases hmt
  | ok rule =>
    simp only [Option.some.injEq] at hmt
    subst hmt
    simp only [parsed_lines, List.mem_map] at hx
    obtain ⟨nl, _, hfx⟩ := hx
    cases hnl2 : nl.2 with
    | error e => rw [hnl2] at hfx; cases hfx
    | ok line =>
      rw [hnl2] at hfx
      simp only [parse_lex_line] at hfx
      cases hlex : lex_line line with
      | error e => rw [hlex] at hfx; cases hfx
      | ok ts =>
        rw [hlex] at hfx
        simp only [Except.bind] at hfx
        cases hpl : parse_line ts ⟨path, nl.1⟩ with
        | error e =>
          rw [hpl] at hfx
          simp [Except.mapError] at hfx
        | ok r' =>
          rw [hpl] at hfx
          simp only [Except.mapError, Except.ok.injEq] at hfx
          subst hfx
          exact ⟨ts, ⟨path, nl.1⟩, hpl⟩

/-- Claim C10: a rule accepted by `parse_line` has exactly one alternative
more than the number of `Or` tokens from index 2 on; a line of just a
nonterminal and an equals yields the single empty alternative; and no rule
table assembled by `parse_file` holds an empty rewrite. -/
theorem parse_line_alternative_count :
    (∀ (tokens : List Token) (location : Location) (r : Rule),
        parse_line tokens location = .ok r →
        r.rewrite.length = (tokens.drop 2).count Token.Or + 1)
    ∧ (∀ (s : String) (location : Location),
        parse_line [Token.Nonterminal s, Token.Equals] location = .ok ⟨s, [[]], location⟩)
    ∧ (∀ (path : String) (lines : List (Except IOError String)) (g : Grammar),
        parse_file path (.ok lines) = .ok g → ∀ e ∈ g.rules, e.2.1 ≠ []) := by
  refine ⟨parse_line_ok_length, fun s location => rfl, ?_⟩
  intro path lines g h e he
  simp only [parse_file] at h
  split at h
  · cases h
  · cases h
    rcases mem_foldl_insert _ [] e he with h1 | ⟨r, hr, he2⟩
    · cases h1
    · obtain ⟨ts, loc, hpl⟩ := collect_rules_provenance path lines r hr
      have hlen := parse_line_ok_length ts loc r hpl
      subst he2
      show r.rewrite ≠ []
      intro hnil
      rw [hnil] at hlen
      simp at hlen

/-- Claim C10 witness: the alternative count on a concrete accepted line and
the non-empty rewrites of a concrete parsed file. -/
theorem parse_line_alternative_count_witness :
    ([[Symbol.Terminal "x"], [Symbol.Terminal "y"]] : Rewrite).length =
      (([Token.Nonterminal "a", Token.Equals, Token.Terminal "x", Token.Or,
          Token.Terminal "y"].drop 2).count Token.Or) + 1
    ∧ (∀ e ∈ ([("a", ([[Symbol.Terminal "x"]], ⟨"f", 1⟩))] : RulesMap), e.2.1 ≠ []) := by
  constructor
  · exact parse_line_alternative_count.1
      [Token.Nonterminal "a", Token.Equals, Token.Terminal "x", Token.Or, Token.Terminal "y"]
      ⟨"f", 1⟩ ⟨"a", [[Symbol.Terminal "x"], [Symbol.Terminal "y"]], ⟨"f", 1⟩⟩ rfl
  · exact parse_line_alternative_count.2.2 "f" [.ok "a = \"x\""]
      ⟨"a", [("a", ([[Symbol.Terminal "x"]], ⟨"f", 1⟩))]⟩ rfl

/-- Helper: per-alternative verifier output, rewritten as one pass that keeps
an error exactly at each undefined nonterminal occurrence. -/
theorem get_alternative_undefined_eq (alternative : Alternative) (location : Location)
    (rules : RulesMap) :
    get_alternative_undefined_symbols alternative location rules =
      alternative.filterMap (fun symbol =>
        match symbol with
        | Symbol.Nonterminal s =>
          if contains_key rules s then none
          else some ⟨location, .UndefinedNonterminal s⟩
        | Symbol.Terminal _ => none) := by
  induction alternative with
  | nil => rfl
  | cons s alt ih =>
    cases s with
    | Nonterminal t =>
      have hstep : get_alternative_undefined_symbols (Symbol.Nonterminal t :: alt) location rules =
          (if contains_key rules t then get_alternative_undefined_symbols alt location rules
            else ⟨location, .UndefinedNonterminal t⟩ ::
              get_alternative_undefined_symbols alt location rules) := by
        simp only [get_alternative_undefined_symbols, List.filterMap_cons]
        by_cases h : contains_key rules t <;> simp [h, List.filter_cons]
      rw [hstep, List.filterMap_cons]
      by_cases h : contains_key rules t <;> simp [h, ih]
    | Terminal t =>
      rw [List.filterMap_cons]
      simp only [get_alternative_undefined_symbols, List.filterMap_cons] at ih ⊢
      simpa using ih

/-- Helper: the whole verifier error list equals the claim-worded one. -/
theorem get_undefined_symbols_eq (rules : RulesMap) :
    get_undefined_symbols rules = spec_undefined_errors rules := by
  simp only [get_undefined_symbols, spec_undefined_errors, get_rewrite_undefined_symbols,
    get_alternative_undefined_eq]

/-- Helper: the verifier finds no error exactly when the table is closed. -/
theorem get_undefined_symbols_eq_nil_iff (rules : RulesMap) :
    get_undefined_symbols rules = [] ↔ rules_closed rules = true := by
  rw [get_undefined_symbols_eq]
  simp only [spec_undefined_errors, List.flatMap_eq_nil_iff, List.filterMap_eq_nil_iff,
    rules_closed, List.all_eq_true]
  constructor
  · intro h e he alt halt symbol hsym
    have hx := h e he alt halt symbol hsym
    cases symbol with
    | Nonterminal t =>
      simp only [symbol_defined]
      by_cases hc : contains_key rules t
      · exact hc
      · simp [hc] at hx
    | Terminal t => simp [symbol_defined]
  · intro h e he alt halt symbol hsym
    have hx := h e he alt halt symbol hsym
    cases symbol with
    | Nonterminal t =>
      simp only [symbol_defined] at hx
      simp [hx]
    | Terminal t => simp

/-- Claim C3: `verify_rules` succeeds exactly when every nonterminal
occurring in any alternative of any rewrite is a key of the table, and
otherwise returns, over the whole table without short-circuiting, exactly
one `UndefinedNonterminal` error per undefined occurrence, located at the
defining rule's location. -/
theorem verify_rules_spec (rules : RulesMap) :
    (verify_rules rules = .ok () ↔ rules_closed rules = true)
    ∧ (rules_closed rules = false →
        verify_rules rules = .error (spec_undefined_errors rules)
        ∧ spec_undefined_errors rules ≠ []) := by
  constructor
  · constructor
    · intro h
      simp only [verify_rules] at h
      split at h
      · cases h
      · rename_i hlen
        have hnil : get_undefined_symbols rules = [] := by
          cases hh : get_undefined_symbols rules with
          | nil => rfl
          | cons a l => rw [hh] at hlen; simp at hlen
        exact (get_undefined_symbols_eq_nil_iff rules).mp hnil
    · intro h
      have hnil : get_undefined_symbols rules = [] :=
        (get_undefined_symbols_eq_nil_iff rules).mpr h
      simp [verify_rules, hnil]
  · intro h
    have hne : get_undefined_symbols rules ≠ [] := by
      intro hnil
      rw [(get_undefined_symbols_eq_nil_iff rules).mp hnil] at h
      cases h
    have hlen : 0 < (get_undefined_symbols rules).length := List.length_pos.mpr hne
    constructor
    · simp only [verify_rules]
      rw [if_pos hlen, get_undefined_symbols_eq]
    · rw [← get_undefined_symbols_eq]
      exact hne

/-- Claim C3 witness: the verifier on a concrete table with one undefined
reference. -/
theorem verify_rules_spec_witness :
    verify_rules [("a", ([[Symbol.Nonterminal "b"], []], ⟨"f", 3⟩))] =
      .error [⟨⟨"f", 3⟩, .UndefinedNonterminal "b"⟩] := by
  have h := (verify_rules_spec [("a", ([[Symbol.Nonterminal "b"], []], ⟨"f", 3⟩))]).2 (by decide)
  rw [h.1]
  rfl

/-- Helper: entries whose key differs from the filtered-out key are found
unchanged. -/
theorem find?_filter_ne (m : RulesMap) (k name : String) (hne : name ≠ k) :
    (m.filter (fun e => e.1 != k)).find? (fun e => e.1 == name) =
      m.find? (fun e => e.1 == name) := by
  induction m with
  | nil => rfl
  | cons e m ih =>
    by_cases hek : e.1 = k
    · have h1 : (e.1 != k) = false := by simp [hek]
      have h2 : (e.1 == name) = false := by
        rw [hek]
        simp only [beq_eq_false_iff_ne, ne_eq]
        exact fun hh => hne hh.symm
      simp [List.filter_cons, h1, List.find?_cons, h2, ih]
    · have h1 : (e.1 != k) = true := by simp [hek]
      by_cases hen : e.1 = name
      · have h2 : (e.1 == name) = true := by simp [hen]
        simp [List.filter_cons, h1, List.find?_cons, h2]
      · have h2 : (e.1 == name) = false := by simp [hen]
        simp [List.filter_cons, h1, List.find?_cons, h2, ih]

/-- Helper: looking up after an insert sees the new binding at its key and
the old table elsewhere. -/
theorem lookup_insert_rule (m : RulesMap) (k : String) (v : Rewrite × Location) (name : String) :
    lookup_rules (insert_rule m k v) name =
      if name = k then some v else lookup_rules m name := by
  simp only [lookup_rules, insert_rule, List.find?_append]
  by_cases h : name = k
  · subst h
    have hnone : (m.filter (fun e => e.1 != name)).find? (fun e => e.1 == name) = none := by
      rw [List.find?_eq_none]
      intro e he
      have h2 := (List.mem_filter.mp he).2
      simp only [bne_iff_ne, ne_eq] at h2
      simp [h2]
    rw [hnone]
    simp
  · rw [find?_filter_ne m k name h]
    have hsingle : ([(k, v)].find? (fun e => e.1 == name)) = none := by
      rw [List.find?_eq_none]
      intro e he
      simp only [List.mem_singleton] at he
      subst he
      simp only [beq_eq_false_iff_ne, ne_eq, Bool.not_eq_true]
      exact fun hh => h hh.symm
    rw [hsingle]
    simp [h]

/-- Helper: looking up the assembled table finds the binding of the last
rule with that symbol, in input order. -/
theorem lookup_foldl_insert (value : List Rule) :
    ∀ (init : RulesMap) (name : String),
    lookup_rules
        (value.foldl (fun m r => insert_rule m r.symbol (r.rewrite, r.location)) init) name =
      (match value.reverse.find? (fun r => r.symbol == name) with
        | some r => some (r.rewrite, r.location)
        | none => lookup_rules init name) := by
  induction value with
  | nil => intro init name; rfl
  | cons r rs ih =>
    intro init name
    rw [List.foldl_cons, ih]
    rw [List.reverse_cons, List.find?_append]
    cases hf : rs.reverse.find? (fun r => r.symbol == name) with
    | some rr => simp [Option.or]
    | none =>
      simp only [Option.none_or]
      by_cases hrn : r.symbol = name
      · have hx : ([r].find? (fun r => r.symbol == name)) = some r := by
          simp [List.find?_cons, hrn]
        rw [hx, lookup_insert_rule]
        simp [hrn.symm]
      · have hx : ([r].find? (fun r => r.symbol == name)) = none := by
          rw [List.find?_eq_none]
          intro x hxm
          simp only [List.mem_singleton] at hxm
          subst hxm
          simp [hrn]
        rw [hx, lookup_insert_rule, if_neg (fun hh => hrn hh.symm)]

/-- Helper: inserting keeps the keys of the table without duplicates. -/
theorem keys_nodup_insert (m : RulesMap) (k : String) (v : Rewrite × Location)
    (h : (m.map Prod.fst).Nodup) : ((insert_rule m k v).map Prod.fst).Nodup := by
  simp only [insert_rule, List.map_append]
  apply List.Nodup.append
  · exact h.sublist ((List.filter_sublist m).map Prod.fst)
  · simp
  · intro a ha hb
    simp only [List.map_cons, List.map_nil, List.mem_singleton] at hb
    subst hb
    simp only [List.mem_map] at ha
    obtain ⟨e, he, hfst⟩ := ha
    have h2 := (List.mem_filter.mp he).2
    simp only [bne_iff_ne, ne_eq] at h2
    exact h2 hfst

/-- Helper: the assembled table has pairwise distinct keys. -/
theorem keys_nodup_foldl (value : List Rule) :
    ∀ init : RulesMap, (init.map Prod.fst).Nodup →
    ((value.foldl (fun m r => insert_rule m r.symbol (r.rewrite, r.location)) init).map
        Prod.fst).Nodup := by
  induction value with
  | nil => exact fun init h => h
  | cons r rs ih => exact fun init h => ih _ (keys_nodup_insert _ _ _ h)

/-- Claim C7: on an error-free parse the grammar's rule table is keyed by
symbol name (keys are distinct) with the last rule of the file winning for a
repeated symbol, and the start symbol is the first parsed rule's symbol, or
empty when the file had no rules. -/
theorem grammar_assembly (path : String) (lines : List (Except IOError String)) (g : Grammar)
    (h : parse_file path (.ok lines) = .ok g) :
    (g.start_symbol =
      (match collect_rules (parsed_lines path lines) with
        | [] => ""
        | r :: _ => r.symbol))
    ∧ (∀ name : String, lookup_rules g.rules name =
        ((collect_rules (parsed_lines path lines)).reverse.find?
          (fun r => r.symbol == name)).map (fun r => (r.rewrite, r.location)))
    ∧ (g.rules.map Prod.fst).Nodup := by
  have hg : g = grammar_from_rules (collect_rules (parsed_lines path lines)) := by
    simp only [parse_file] at h
    split at h
    · cases h
    · cases h; rfl
  subst hg
  refine ⟨rfl, ?_, keys_nodup_foldl _ [] (by simp)⟩
  intro name
  have hl := lookup_foldl_insert (collect_rules (parsed_lines path lines)) [] name
  rw [show (grammar_from_rules (collect_rules (parsed_lines path lines))).rules =
      (collect_rules (parsed_lines path lines)).foldl
        (fun m r => insert_rule m r.symbol (r.rewrite, r.location)) [] from rfl]
  rw [hl]
  cases (collect_rules (parsed_lines path lines)).reverse.find? (fun r => r.symbol == name) with
  | some r => rfl
  | none => rfl

/-- Claim C7 witness: a concrete file defining the same symbol twice, where
the second rule's rewrite and location win. -/
theorem grammar_assembly_witness :
    lookup_rules [("a", ([[Symbol.Terminal "y"]], ⟨"f", 2⟩))] "a" =
      some ([[Symbol.Terminal "y"]], ⟨"f", 2⟩) := by
  have h := (grammar_assembly "f" [.ok "a = \"x\"", .ok "a = \"y\""]
    ⟨"a", [("a", ([[Symbol.Terminal "y"]], ⟨"f", 2⟩))]⟩ rfl).2.1 "a"
  exact h.trans (by rfl)

/-- Claim C2: `parse_file` skips, with no processing and no error, exactly
the lines that are empty or start with `;`; every other read line is lexed
and parsed at its 1-based physical line number; failed reads are kept as
errors; and when any error exists the result is the full collected error
list, never a grammar. -/
theorem parse_file_line_handling (path : String) (lines : List (Except IOError String)) :
    (∀ s : String, is_rule_line s = false ↔ (s.data = [] ∨ s.data.head? = some ';'))
    ∧ (∀ (i : Nat) (s : String), lines[i]? = some (.ok s) → is_rule_line s = false →
        ∀ p, (i + 1, p) ∉ file_line_nums path lines)
    ∧ (∀ (i : Nat) (s : String), lines[i]? = some (.ok s) → is_rule_line s = true →
        (i + 1, Except.ok s) ∈ file_line_nums path lines
        ∧ parse_lex_line s ⟨path, i + 1⟩ ∈ parsed_lines path lines)
    ∧ (∀ (i : Nat) (e : IOError), lines[i]? = some (.error e) →
        Except.error (io_error e path) ∈ parsed_lines path lines)
    ∧ (∀ es, parse_file path (.ok lines) = .error es →
        es = collect_errors (parsed_lines path lines) ∧ es ≠ [])
    ∧ (collect_errors (parsed_lines path lines) ≠ [] →
        ∃ es, parse_file path (.ok lines) = .error es)
    ∧ (∀ g, parse_file path (.ok lines) = .ok g →
        collect_errors (parsed_lines path lines) = []) := by
  refine ⟨?_, ?_, ?_, ?_, ?_, ?_, ?_⟩
  · intro s
    cases hd : s.data with
    | nil => simp [is_rule_line, hd]
    | cons c cs => simp [is_rule_line, hd]
  · intro i s hla hrl p hmem
    simp only [file_line_nums, List.mem_map] at hmem
    obtain ⟨nl, hnl, heq⟩ := hmem
    obtain ⟨n1, l1⟩ := nl
    obtain ⟨henum, hcond⟩ := List.mem_filter.mp hnl
    simp only [Prod.mk.injEq] at heq
    have hn : n1 = i := by omega
    subst hn
    rw [List.mem_enum_iff_getElem?] at henum
    simp only [List.getElem?_map, hla] at henum
    simp [Except.mapError] at henum
    subst henum
    simp [hrl] at hcond
  · intro i s hla hrl
    have hmem1 : (i + 1, Except.ok s) ∈ file_line_nums path lines := by
      simp only [file_line_nums, List.mem_map]
      refine ⟨(i, Except.ok s), List.mem_filter.mpr ⟨?_, ?_⟩, rfl⟩
      · rw [List.mem_enum_iff_getElem?]
        simp only [List.getElem?_map, hla]
        rfl
      · simpa using hrl
    refine ⟨hmem1, ?_⟩
    simp only [parsed_lines, List.mem_map]
    exact ⟨(i + 1, Except.ok s), hmem1, rfl⟩
  · intro i e hla
    have hmem1 : (i + 1, Except.error (io_error e path)) ∈ file_line_nums path lines := by
      simp only [file_line_nums, List.mem_map]
      refine ⟨(i, Except.error (io_error e path)), List.mem_filter.mpr ⟨?_, ?_⟩, rfl⟩
      · rw [List.mem_enum_iff_getElem?]
        simp only [List.getElem?_map, hla]
        rfl
      · rfl
    simp only [parsed_lines, List.mem_map]
    exact ⟨(i + 1, Except.error (io_error e path)), hmem1, rfl⟩
  · intro es h
    simp only [parse_file] at h
    split at h
    · cases h
      rename_i hlen
      refine ⟨rfl, ?_⟩
      intro hnil
      rw [hnil] at hlen
      simp at hlen
    · cases h
  · intro hne
    simp only [parse_file]
    rw [if_pos (by simpa using List.length_pos.mpr hne)]
    exact ⟨_, rfl⟩
  · intro g h
    simp only [parse_file] at h
    split at h
    · cases h
    · rename_i hlen
      cases hh : collect_errors (parsed_lines path lines) with
      | nil => rfl
      | cons a l => rw [hh] at hlen; simp at hlen

/-- Claim C2 witness: a concrete file with a blank line, a comment line, a
rule line and a failed read. -/
theorem parse_file_line_handling_witness :
    (2 + 1, Except.ok "a = \"x\"") ∈
      file_line_nums "f" [.ok "", .ok "; note", .ok "a = \"x\"", .error "boom"]
    ∧ ([⟨⟨"f", 0⟩, .FileError "boom"⟩] : List CompileError) =
      collect_errors (parsed_lines "f" [.ok "", .ok "; note", .ok "a = \"x\"", .error "boom"]) := by
  constructor
  · exact ((parse_file_line_handling "f" _).2.2.1 2 "a = \"x\"" rfl rfl).1
  · exact ((parse_file_line_handling "f" _).2.2.2.2.1 [⟨⟨"f", 0⟩, .FileError "boom"⟩]
      (by rfl)).1

/-- Helper: the literal text a symbol contributes when it is a terminal. -/
def terminal_text : Symbol → String
  | Symbol.Terminal t => t
  | Symbol.Nonterminal _ => ""

/-- Helper: concatenated terminal text of an alternative. -/
def alt_text : Alternative → String
  | [] => ""
  | s :: rest => terminal_text s ++ alt_text rest

/-- Helper: a successful lookup is a binding of the table. -/
theorem lookup_rules_mem {m : RulesMap} {k : String} {v : Rewrite × Location}
    (h : lookup_rules m k = some v) : (k, v) ∈ m := by
  simp only [lookup_rules, Option.map_eq_some'] at h
  obtain ⟨e, hf, he⟩ := h
  have hm := List.mem_of_find?_eq_some hf
  have hp := List.find?_some hf
  obtain ⟨e1, e2⟩ := e
  simp only [beq_iff_eq] at hp
  subst hp
  subst he
  exact hm

/-- Helper: expanding an all-terminal alternative yields its concatenated
text, whatever the random stream, draw counter or fuel. -/
theorem gen_alt_terminal (rules : RulesMap) (rng : Nat → Nat) (location : Location)
    (alt : Alternative) (hall : ∀ s ∈ alt, ∃ t, s = Symbol.Terminal t) :
    ∀ (fuel k : Nat) (r : String × Nat),
    gen rules rng fuel (.alt alt) location k = some (.ok r) → r = (alt_text alt, k) := by
  induction alt with
  | nil =>
    intro fuel k r h
    cases fuel with
    | zero => cases h
    | succ f =>
      simp only [gen, Option.some.injEq, Except.ok.injEq] at h
      exact h.symm
  | cons s rest ih =>
    intro fuel k r h
    obtain ⟨t, rfl⟩ := hall s (List.mem_cons_self _ _)
    cases fuel with
    | zero => cases h
    | succ f =>
      cases f with
      | zero => simp [gen] at h
      | succ f2 =>
        simp only [gen] at h
        cases hrest2 : gen rules rng (f2 + 1) (.alt rest) location k with
        | none => rw [hrest2] at h; cases h
        | some x =>
          cases x with
          | error e => rw [hrest2] at h; simp at h
          | ok sk2 =>
            rw [hrest2] at h
            simp only [Option.some.injEq, Except.ok.injEq] at h
            have hsk := ih (fun s hs => hall s (List.mem_cons_of_mem _ hs)) (f2 + 1) k sk2 hrest2
            rw [← h, hsk]
            simp [alt_text, terminal_text]

/-- Helper: in a grammar where every rewrite is a single all-terminal
alternative, a successful generation run from a defined nonterminal
produces exactly that alternative's text. -/
theorem gen_nt_flat (rules : RulesMap)
    (hflat : ∀ e ∈ rules, ∃ alt, e.2.1 = [alt] ∧ ∀ s ∈ alt, ∃ t, s = Symbol.Terminal t)
    (start : String) (location : Location) :
    ∀ (fuel : Nat) (rng : Nat → Nat) (k : Nat) (s : String) (j : Nat),
    generate_nonterminal fuel rules rng start location k = some (.ok (s, j)) →
    ∃ rl, lookup_rules rules start = some rl ∧ ∃ alt, rl.1 = [alt] ∧ s = alt_text alt := by
  intro fuel rng k s j h
  cases fuel with
  | zero => cases h
  | succ f =>
    simp only [generate_nonterminal] at h
    cases hlk : lookup_rules rules start with
    | none => simp [gen, hlk] at h
    | some rl =>
      simp only [gen, hlk] at h
      obtain ⟨alt, h1, h2⟩ := hflat (start, rl) (lookup_rules_mem hlk)
      have h1' : rl.1 = [alt] := h1
      refine ⟨rl, rfl, alt, h1', ?_⟩
      rw [h1'] at h
      cases f with
      | zero => cases h
      | succ f2 =>
        simp only [gen] at h
        rw [List.get_singleton] at h
        have hx := gen_alt_terminal rules rng rl.2 alt h2 f2 (k + 1) (s, j) h
        exact congrArg Prod.fst hx

/-- Claim C8: for a grammar in which every rewrite has exactly one
alternative consisting only of terminals, any two successful generation
runs from the same start symbol produce the same string, whatever the
random streams, draw counters and fuel. -/
theorem generation_deterministic (rules : RulesMap)
    (hflat : ∀ e ∈ rules, ∃ alt, e.2.1 = [alt] ∧ ∀ s ∈ alt, ∃ t, s = Symbol.Terminal t)
    (start : String) (location : Location) :
    ∀ (fuel1 fuel2 : Nat) (rng1 rng2 : Nat → Nat) (k1 k2 : Nat) (s1 s2 : String) (j1 j2 : Nat),
    generate_nonterminal fuel1 rules rng1 start location k1 = some (.ok (s1, j1)) →
    generate_nonterminal fuel2 rules rng2 start location k2 = some (.ok (s2, j2)) →
    s1 = s2 := by
  intro fuel1 fuel2 rng1 rng2 k1 k2 s1 s2 j1 j2 h1 h2
  obtain ⟨rl, hlk, alt, ha, hs1⟩ := gen_nt_flat rules hflat start location fuel1 rng1 k1 s1 j1 h1
  obtain ⟨rl', hlk', alt', ha', hs2⟩ := gen_nt_flat rules hflat start location fuel2 rng2 k2 s2 j2 h2
  rw [hlk] at hlk'
  cases hlk'
  rw [ha] at ha'
  cases ha'
  rw [hs1, hs2]

/-- Claim C8 witness: two runs on a concrete flat grammar with different
random streams, draw counters and fuel, both producing the same string. -/
theorem generation_deterministic_witness :
    generate_nonterminal 5 [("s", ([[Symbol.Terminal "hi", Symbol.Terminal "!"]], ⟨"f", 1⟩))]
        (fun _ => 0) "s" ⟨"f", 0⟩ 0 = some (.ok ("hi!", 1))
    ∧ generate_nonterminal 7 [("s", ([[Symbol.Terminal "hi", Symbol.Terminal "!"]], ⟨"f", 1⟩))]
        (fun n => n + 17) "s" ⟨"f", 0⟩ 3 = some (.ok ("hi!", 4))
    ∧ "hi!" = "hi!" := by
  refine ⟨by rfl, by rfl, ?_⟩
  exact generation_deterministic [("s", ([[Symbol.Terminal "hi", Symbol.Terminal "!"]], ⟨"f", 1⟩))]
    (by
      intro e he
      simp only [List.mem_singleton] at he
      subst he
      refine ⟨[Symbol.Terminal "hi", Symbol.Terminal "!"], rfl, ?_⟩
      intro s hs
      rcases List.mem_cons.mp hs with rfl | hs2
      · exact ⟨"hi", rfl⟩
      · rcases List.mem_cons.mp hs2 with rfl | hs3
        · exact ⟨"!", rfl⟩
        · cases hs3)
    "s" ⟨"f", 0⟩ 5 7 (fun _ => 0) (fun n => n + 17) 0 3 "hi!" "hi!" 1 4 (by rfl) (by rfl)

/-- Helper: the scanning loop accepts an exhausted line at any fuel. -/
theorem lex_line_aux_nil (fuel : Nat) : lex_line_aux fuel [] = .ok [] := by
  cases fuel <;> rfl

/-- Helper: inversion of a successful `lex_terminal`. -/
theorem lex_terminal_ok_inv (cs : List Char) (t : Token) (rest2 : List Char)
    (h : lex_terminal cs = .ok (t, rest2)) :
    (cs.drop 1).dropWhile (fun c => c != '\"') = '\"' :: rest2
    ∧ t = Token.Terminal (String.mk ((cs.drop 1).takeWhile (fun c => c != '\"'))) := by
  simp only [lex_terminal] at h
  split at h
  · rename_i heq
    simp only [Except.ok.injEq, Prod.mk.injEq] at h
    obtain ⟨ht, hr⟩ := h
    subst hr
    exact ⟨heq, ht.symm⟩
  · cases h

/-- Helper: a lexed terminal consumes at least the opening quote. -/
theorem lex_terminal_length (c : Char) (rest : List Char) (t : Token) (rest2 : List Char)
    (h : lex_terminal (c :: rest) = .ok (t, rest2)) : rest2.length < rest.length + 1 := by
  obtain ⟨hdw, _⟩ := lex_terminal_ok_inv _ _ _ h
  have hs : ('\"' :: rest2).length ≤ rest.length := by
    rw [← hdw]
    simpa using (List.dropWhile_sublist (l := rest) (fun c => c != '\"')).length_le
  simp only [List.length_cons] at hs
  omega

/-- Helper: a lexed nonterminal consumes at least its first character. -/
theorem lex_nonterminal_length (c : Char) (rest : List Char) :
    (lex_nonterminal (c :: rest)).2.length ≤ rest.length := by
  have hs := (List.dropWhile_sublist (l := rest) (fun c => !c.isWhitespace)).length_le
  simp only [lex_nonterminal, List.dropWhile_cons]
  by_cases h : (!c.isWhitespace) = true
  · rw [if_pos h]
    simp only [List.length_drop]
    omega
  · rw [if_neg h]
    simp

/-- Helper: the scanning loop does not depend on the fuel once the fuel
covers the length of the input. -/
theorem lex_line_aux_fuel : ∀ (n : Nat) (cs : List Char), cs.length ≤ n →
    ∀ (fuel1 fuel2 : Nat), cs.length ≤ fuel1 → cs.length ≤ fuel2 →
    lex_line_aux fuel1 cs = lex_line_aux fuel2 cs := by
  intro n
  induction n with
  | zero =>
    intro cs hn fuel1 fuel2 h1 h2
    match cs with
    | [] => rw [lex_line_aux_nil, lex_line_aux_nil]
    | c :: rest => simp at hn
  | succ n ihn =>
    intro cs hn fuel1 fuel2 h1 h2
    match cs with
    | [] => rw [lex_line_aux_nil, lex_line_aux_nil]
    | c :: rest =>
      simp only [List.length_cons] at hn h1 h2
      obtain ⟨f1, rfl⟩ : ∃ f1, fuel1 = f1 + 1 := ⟨fuel1 - 1, by omega⟩
      obtain ⟨f2, rfl⟩ : ∃ f2, fuel2 = f2 + 1 := ⟨fuel2 - 1, by omega⟩
      simp only [lex_line_aux]
      by_cases hc1 : c = '='
      · rw [if_pos hc1, if_pos hc1, ihn rest (by omega) f1 f2 (by omega) (by omega)]
      · rw [if_neg hc1, if_neg hc1]
        by_cases hc2 : c = '|'
        · rw [if_pos hc2, if_pos hc2, ihn rest (by omega) f1 f2 (by omega) (by omega)]
        · rw [if_neg hc2, if_neg hc2]
          by_cases hc3 : c = '\"'
          · rw [if_pos hc3, if_pos hc3]
            cases ht : lex_terminal (c :: rest) with
            | error e => simp [ht]
            | ok tr =>
              obtain ⟨t, rest2⟩ := tr
              have hlt := lex_terminal_length c rest t rest2 ht
              simp only [ht]
              rw [ihn rest2 (by omega) f1 f2 (by omega) (by omega)]
          · rw [if_neg hc3, if_neg hc3]
            by_cases hc4 : (!c.isWhitespace) = true
            · rw [if_pos hc4, if_pos hc4]
              have hle := lex_nonterminal_length c rest
              rw [ihn (lex_nonterminal (c :: rest)).2 (by omega) f1 f2 (by omega) (by omega)]
            · rw [if_neg hc4, if_neg hc4]
              exact ihn rest (by omega) f1 f2 (by omega) (by omega)

/-- Helper: any sufficient fuel computes `lex_chars`. -/
theorem lex_line_aux_eq_lex_chars (fuel : Nat) (cs : List Char) (h : cs.length ≤ fuel) :
    lex_line_aux fuel cs = lex_chars cs :=
  lex_line_aux_fuel fuel cs h fuel cs.length h (le_refl _)

/-- Helper: one scanner step of `lex_chars`, with every recursive call again
at its canonical fuel. -/
theorem lex_chars_cons (c : Char) (cs : List Char) :
    lex_chars (c :: cs) =
      (if c = '=' then (lex_chars cs).map (fun ts => Token.Equals :: ts)
      else if c = '|' then (lex_chars cs).map (fun ts => Token.Or :: ts)
      else if c = '\"' then
        match lex_terminal (c :: cs) with
        | .error e => .error e
        | .ok tr => (lex_chars tr.2).map (fun ts => tr.1 :: ts)
      else if !c.isWhitespace then
        (lex_chars (lex_nonterminal (c :: cs)).2).map
          (fun ts => (lex_nonterminal (c :: cs)).1 :: ts)
      else lex_chars cs) := by
  show lex_line_aux (cs.length + 1) (c :: cs) = _
  simp only [lex_line_aux]
  by_cases hc1 : c = '='
  · rw [if_pos hc1, if_pos hc1, lex_line_aux_eq_lex_chars cs.length cs (le_refl _)]
  · rw [if_neg hc1, if_neg hc1]
    by_cases hc2 : c = '|'
    · rw [if_pos hc2, if_pos hc2, lex_line_aux_eq_lex_chars cs.length cs (le_refl _)]
    · rw [if_neg hc2, if_neg hc2]
      by_cases hc3 : c = '\"'
      · rw [if_pos hc3, if_pos hc3]
        cases ht : lex_terminal (c :: cs) with
        | error e => simp [ht]
        | ok tr =>
          obtain ⟨t, rest2⟩ := tr
          have hlt := lex_terminal_length c cs t rest2 ht
          simp only [ht]
          rw [lex_line_aux_eq_lex_chars cs.length rest2 (by omega)]
      · rw [if_neg hc3, if_neg hc3]
        by_cases hc4 : (!c.isWhitespace) = true
        · rw [if_pos hc4, if_pos hc4]
          have hle := lex_nonterminal_length c cs
          rw [lex_line_aux_eq_lex_chars cs.length _ (by omega)]
        · rw [if_neg hc4, if_neg hc4, lex_line_aux_eq_lex_chars cs.length cs (le_refl _)]

/-- Helper: a quote that opens a terminal with no closing quote on the rest
of the line fails the lexer with `UnmatchedQuote`. -/
theorem lex_chars_open_quote (post : List Char) (hq : '\"' ∉ post) :
    lex_chars ('\"' :: post) = .error .UnmatchedQuote := by
  have hdrop : post.dropWhile (fun c => c != '\"') = [] := by
    rw [List.dropWhile_eq_nil_iff]
    intro x hx
    simp only [bne_iff_ne, ne_eq]
    intro hxq
    exact hq (hxq ▸ hx)
  have hterm : lex_terminal ('\"' :: post) = .error .UnmatchedQuote := by
    simp only [lex_terminal, List.drop_succ_cons, List.drop_zero]
    rw [hdrop]
  rw [lex_chars_cons, if_neg (by decide), if_neg (by decide), if_pos rfl, hterm]

/-- Helper: an `UnmatchedQuote` failure of the remaining input fails the
whole line, whatever tokens the scanner had already produced on the way
there. -/
theorem lex_reaches_error (cs rest : List Char) (hr : lex_reaches cs rest)
    (herr : lex_chars rest = .error .UnmatchedQuote) :
    lex_chars cs = .error .UnmatchedQuote := by
  induction hr with
  | refl => exact herr
  | equals h ih =>
    rw [lex_chars_cons, if_pos rfl, ih herr]
    rfl
  | orbar h ih =>
    rw [lex_chars_cons, if_neg (by decide), if_pos rfl, ih herr]
    rfl
  | terminal t rest2 ht h ih =>
    rw [lex_chars_cons, if_neg (by decide), if_neg (by decide), if_pos rfl]
    simp only [ht]
    rw [ih herr]
    rfl
  | nonterminal c h1 h2 h3 h4 h ih =>
    rw [lex_chars_cons, if_neg h1, if_neg h2, if_neg h3, if_pos h4, ih herr]
    rfl
  | whitespace c hw h ih =>
    have h1 : c ≠ '=' := by
      intro hh
      rw [hh] at hw
      exact absurd hw (by decide)
    have h2 : c ≠ '|' := by
      intro hh
      rw [hh] at hw
      exact absurd hw (by decide)
    have h3 : c ≠ '\"' := by
      intro hh
      rw [hh] at hw
      exact absurd hw (by decide)
    rw [lex_chars_cons, if_neg h1, if_neg h2, if_neg h3, if_neg (by simp [hw]), ih herr]

/-- Claim C6: for every input line in which the scanner reaches a `\"` that
opens a terminal and no closing `\"` occurs before the end of the line,
`lex_line` fails with `UnmatchedQuote`: the partially consumed text is
discarded and the whole line fails, independent of how many tokens were
already lexed before the unterminated quote. -/
theorem lex_line_unmatched_quote (cs post : List Char)
    (hr : lex_reaches cs ('\"' :: post)) (hq : '\"' ∉ post) :
    lex_chars cs = .error .UnmatchedQuote :=
  lex_reaches_error cs ('\"' :: post) hr (lex_chars_open_quote post hq)

/-- Claim C6 witness: lines whose unterminated quote follows
whitespace-separated tokens, an adjacent closing quote, and a bare `=`, all
failing with `UnmatchedQuote`. -/
theorem lex_line_unmatched_quote_witness :
    lex_line "greet = \"welcome" = .error .UnmatchedQuote
    ∧ lex_line "\"a\"\"welcome" = .error .UnmatchedQuote
    ∧ lex_line "=\"welcome" = .error .UnmatchedQuote := by
  refine ⟨?_, ?_, ?_⟩
  · refine lex_line_unmatched_quote ("greet = \"welcome".data) ("welcome".data) ?_ (by decide)
    apply lex_reaches.nonterminal 'g' (by decide) (by decide) (by decide) (by decide)
    show lex_reaches ("= \"welcome".data) ('\"' :: "welcome".data)
    apply lex_reaches.equals
    apply lex_reaches.whitespace ' ' (by decide)
    exact lex_reaches.refl _
  · refine lex_line_unmatched_quote ("\"a\"\"welcome".data) ("welcome".data) ?_ (by decide)
    apply lex_reaches.terminal (Token.Terminal "a") ("\"welcome".data) (by rfl)
    exact lex_reaches.refl _
  · refine lex_line_unmatched_quote ("=\"welcome".data) ("welcome".data) ?_ (by decide)
    apply lex_reaches.equals
    exact lex_reaches.refl _

end Blabber
